import Mathlib

/-!
Shallow embedding of the PostgreSQL online store adapter
(feast_postgres/online_stores/postgres.py).

Modelling conventions:
- Serialized entity keys and serialized feature values are byte strings,
  modelled as lists of naturals.  The external codecs (serialize_entity_key,
  ValueProto.SerializeToString / ParseFromString) are opaque collaborators of
  this repository, so value serialization is the identity on Bytes and
  entity-key serialization is an arbitrary function passed as the parameter
  ser to each operation.
- The physical table is a list of stored rows; well-formedness (pairwise
  distinct primary keys) mirrors PRIMARY KEY(entity_key, feature_name).
- The backend returns the rows matching a SELECT in an unspecified order:
  read theorems quantify over an arbitrary permutation of the query result.
- Python dicts are modelled as association lists with insert-or-overwrite
  (dictInsert), preserving insertion order exactly as CPython does.
-/

/-- Byte strings (entity-key encodings and serialized values). -/
abbrev Bytes := List Nat

/-- Python datetime value: wall-clock time in minutes, plus the UTC offset in
minutes when the value is timezone aware (tz = none means naive). -/
structure PyDateTime where
  wall : Int
  tz : Option Int
  deriving DecidableEq

/-- Embedding of _to_naive_utc (postgres.py lines 240 to 244): a naive
timestamp is returned unchanged; an aware timestamp is converted to UTC
(wall-clock minus its offset, matching astimezone(pytz.utc)) and its zone
marker is stripped (replace(tzinfo=None)). -/
def _to_naive_utc (ts : PyDateTime) : PyDateTime :=
  match ts.tz with
  | none => ts
  | some off => { wall := ts.wall - off, tz := none }

/-- One physical row of a feature table: columns entity_key, feature_name,
value, event_ts, created_ts (see the CREATE TABLE in update, lines 191-199). -/
structure StoredRow where
  entity_key : Bytes
  feature_name : String
  value : Bytes
  event_ts : PyDateTime
  created_ts : Option PyDateTime
  deriving DecidableEq

/-- The PRIMARY KEY (entity_key, feature_name) constraint: all rows of the
physical table have pairwise distinct primary keys. -/
def WellFormed (t : List StoredRow) : Prop :=
  t.Pairwise (fun a b => a.entity_key ≠ b.entity_key ∨ a.feature_name ≠ b.feature_name)

/-- Boolean primary-key test used to select the rows of one (key, feature)
pair. -/
def pkEq (ek : Bytes) (fn : String) (s : StoredRow) : Bool :=
  decide (s.entity_key = ek ∧ s.feature_name = fn)

/-- Semantics of one row of INSERT ... ON CONFLICT (entity_key, feature_name)
DO UPDATE SET value, event_ts, created_ts (lines 84-94): if a row with the
same primary key exists it is overwritten in place, otherwise the row is
appended. -/
def upsertRow (t : List StoredRow) (r : StoredRow) : List StoredRow :=
  if t.any (pkEq r.entity_key r.feature_name) then
    t.map (fun s => if pkEq r.entity_key r.feature_name s then r else s)
  else
    t ++ [r]

/-- One element of the data argument of online_write_batch:
(entity_key, values dict, event timestamp, optional created timestamp).
The values dict is an insertion-ordered association list, as a Python dict. -/
structure InputRecord where
  entity_key : Bytes
  values : List (String × Bytes)
  timestamp : PyDateTime
  created_ts : Option PyDateTime
  deriving DecidableEq

/-- Embedding of the flattening loop of online_write_batch (lines 61-77):
each record is serialized, its timestamps normalized with _to_naive_utc, and
one row per feature name is appended to insert_values. -/
def flattenData (ser : Bytes → Bytes) (data : List InputRecord) : List StoredRow :=
  data.foldl
    (fun insert_values rec =>
      let entity_key_bin := ser rec.entity_key
      let timestamp := _to_naive_utc rec.timestamp
      let created_ts := rec.created_ts.map _to_naive_utc
      insert_values ++
        rec.values.map (fun fv =>
          { entity_key := entity_key_bin
            feature_name := fv.1
            value := fv.2
            event_ts := timestamp
            created_ts := created_ts }))
    []

/-- The fixed batch size of online_write_batch (line 79). -/
def batch_size : Nat := 5000

/-- Observable outcome of online_write_batch: the final table state, the list
of arguments passed to the progress callback in call order, and the number of
execute_values statements issued. -/
structure WriteOutcome where
  table : List StoredRow
  progressCalls : List Nat
  statements : Nat
  deriving DecidableEq

/-- Embedding of the batch loop for i in range(0, len(insert_values),
batch_size) (lines 80-100), by recursion on the remaining iteration count;
i is the current start index.  Each iteration takes cur_batch =
insert_values[i : i + batch_size], applies the multi-row upsert (one
execute_values statement; modelled as a left fold of upsertRow, which agrees
with PostgreSQL when the primary keys within one batch are distinct), and
then invokes progress with len(cur_batch) when a callback was supplied. -/
def rangeLoop (insert_values : List StoredRow) (hasProgress : Bool) :
    Nat → Nat → List StoredRow → WriteOutcome
  | 0, _, table => { table := table, progressCalls := [], statements := 0 }
  | n + 1, i, table =>
    let cur_batch := (insert_values.drop i).take batch_size
    let table2 := cur_batch.foldl upsertRow table
    let rest := rangeLoop insert_values hasProgress n (i + batch_size) table2
    { table := rest.table
      progressCalls := (if hasProgress then [cur_batch.length] else []) ++ rest.progressCalls
      statements := rest.statements + 1 }

/-- Embedding of online_write_batch (lines 49-100).  The table argument is
the current state of the physical table; hasProgress records whether the
progress callback argument was None.  range(0, len, step) with step =
batch_size performs ceil(len / batch_size) iterations. -/
def online_write_batch (ser : Bytes → Bytes) (table : List StoredRow)
    (data : List InputRecord) (hasProgress : Bool) : WriteOutcome :=
  let insert_values := flattenData ser data
  rangeLoop insert_values hasProgress
    ((insert_values.length + (batch_size - 1)) / batch_size) 0 table

/-- One row returned by the SELECT of online_read (lines 119-127): columns
entity_key, feature_name, value, event_ts. -/
structure ReadRow where
  entity_key : Bytes
  feature_name : String
  value : Bytes
  event_ts : PyDateTime
  deriving DecidableEq

/-- The row set produced by SELECT entity_key, feature_name, value, event_ts
FROM table WHERE entity_key = ANY(keys), before the backend picks a return
order. -/
def queryRows (ser : Bytes → Bytes) (table : List StoredRow)
    (entity_keys : List Bytes) : List ReadRow :=
  let keys := entity_keys.map ser
  (table.filter (fun r => keys.contains r.entity_key)).map
    (fun r =>
      { entity_key := r.entity_key
        feature_name := r.feature_name
        value := r.value
        event_ts := r.event_ts })

/-- The row group values_dict[k] built by the defaultdict loop (lines
134-136): the (feature_name, value, event_ts) triples of the returned rows
whose entity_key equals k, in backend return order.  Membership of k in
values_dict is equivalent to this list being nonempty. -/
def groupForKey (rows : List ReadRow) (k : Bytes) :
    List (String × Bytes × PyDateTime) :=
  (rows.filter (fun r => decide (r.entity_key = k))).map
    (fun r => (r.feature_name, r.value, r.event_ts))

/-- Python dict assignment d[k] = v on an insertion-ordered association
list: overwrite in place when the key exists, else append. -/
def dictInsert (d : List (String × Bytes)) (k : String) (v : Bytes) :
    List (String × Bytes) :=
  if d.any (fun p => decide (p.1 = k)) then
    d.map (fun p => if p.1 = k then (k, v) else p)
  else
    d ++ [(k, v)]

/-- Python dict lookup d[k] on an association list. -/
def dictLookup (d : List (String × Bytes)) (k : String) : Option Bytes :=
  match d.find? (fun p => decide (p.1 = k)) with
  | none => none
  | some p => some p.2

/-- The res dict built for one requested key (lines 141-145): for each
(feature_name, value_bin, event_ts) of the row group, res[feature_name] =
ParseFromString(value_bin); the value codec is the identity in this model. -/
def buildRes (g : List (String × Bytes × PyDateTime)) : List (String × Bytes) :=
  g.foldl (fun res e => dictInsert res e.1 e.2.1) []

/-- The value of the Python loop variable event_ts after the for loop over
the row group: the event_ts of the LAST element, none when the group is
empty (in which case the emitting branch is not taken). -/
def lastEts : List (String × Bytes × PyDateTime) → Option PyDateTime
  | [] => none
  | [e] => some e.2.2
  | _ :: e :: es => lastEts (e :: es)

/-- The result emitted for one requested serialized key (lines 138-148):
(event_ts, res) when the key is present in values_dict, (None, None)
otherwise.  lastEts g = none exactly when the group is empty, i.e. when the
key is absent from values_dict. -/
def emitForKey (rows : List ReadRow) (k : Bytes) :
    Option PyDateTime × Option (List (String × Bytes)) :=
  let g := groupForKey rows k
  match lastEts g with
  | none => (none, none)
  | some ets => (some ets, some (buildRes g))

/-- Observable outcome of online_read: the result list and the number of
cur.execute calls issued against the backend. -/
structure ReadOutcome where
  results : List (Option PyDateTime × Option (List (String × Bytes)))
  executeCalls : Nat
  deriving DecidableEq

/-- Embedding of online_read (lines 102-150).  rows is the list of rows the
backend returned for the single SELECT, in backend order; entity_keys are
serialized in order (line 115-117) and each is resolved against the grouped
rows.  requested_features is accepted and ignored, as in the source.  Exactly
one cur.execute is issued (line 119). -/
def online_read (ser : Bytes → Bytes) (rows : List ReadRow)
    (entity_keys : List Bytes) ( requested_features : Option (List String)) :
    ReadOutcome :=
  { results := (entity_keys.map ser).map (fun k => emitForKey rows k)
    executeCalls := 1 }

/-- Observable outcome of teardown: whether an exception escaped to the
caller, and whether logging.exception was invoked. -/
structure TeardownOutcome where
  raised : Option String
  loggedException : Bool
  deriving DecidableEq

/-- Embedding of teardown (lines 217-233).  The attempt argument is the
outcome of the try block (acquiring the connection and executing DROP SCHEMA
IF EXISTS ... CASCADE); the except Exception handler catches every failure,
calls logging.exception, and falls through, so no exception propagates. -/
def teardown (attempt : Except String Unit) : TeardownOutcome :=
  match attempt with
  | Except.ok _ => { raised := none, loggedException := false }
  | Except.error _ => { raised := none, loggedException := true }

/-- The batch row counts the progress callback receives for a flattened row
list of length n, stated from the spec text: consecutive batches of at most
batch_size rows, ceil(n / batch_size) batches in all, the batch starting at
index 5000 * i holding min 5000 (n - 5000 * i) rows. -/
def progressSizes (n : Nat) : List Nat :=
  (List.range ((n + (batch_size - 1)) / batch_size)).map
    (fun i => min batch_size (n - batch_size * i))

/-- Concrete write input for the batch-partitioning instance: n records, one
feature each. -/
def singleFeatureData (n : Nat) : List InputRecord :=
  List.replicate n
    { entity_key := []
      values := [("f", [])]
      timestamp := { wall := 0, tz := none }
      created_ts := none }

/-- The rows one input record contributes to insert_values: one stored row
per feature, with the serialized key and normalized timestamps.  flattenData
is proved equal to the concatenation of these contributions. -/
def rowsOfRecord (ser : Bytes → Bytes) (rec : InputRecord) : List StoredRow :=
  rec.values.map (fun fv =>
    { entity_key := ser rec.entity_key
      feature_name := fv.1
      value := fv.2
      event_ts := _to_naive_utc rec.timestamp
      created_ts := rec.created_ts.map _to_naive_utc })

/-- Concrete table for the read-path event_ts analysis: one entity key with
two features whose event timestamps differ, stored with the larger timestamp
first. -/
def c7Table : List StoredRow :=
  [{ entity_key := [0], feature_name := "f1", value := [1],
     event_ts := { wall := 5, tz := none }, created_ts := none },
   { entity_key := [0], feature_name := "f2", value := [2],
     event_ts := { wall := 3, tz := none }, created_ts := none }]

/-- A backend return order for the SELECT of c7Table at key [0]: the row
with the larger event_ts comes first, so the last row of the group is not
the latest one. -/
def c7Rows : List ReadRow :=
  [{ entity_key := [0], feature_name := "f1", value := [1],
     event_ts := { wall := 5, tz := none } },
   { entity_key := [0], feature_name := "f2", value := [2],
     event_ts := { wall := 3, tz := none } }]

/-! Shared lemmas about the read path. -/

theorem online_read_results_getElem (ser : Bytes → Bytes) (rows : List ReadRow)
    (keys : List Bytes) (rf : Option (List String)) (i : Nat) :
    (online_read ser rows keys rf).results[i]? =
      keys[i]?.map (fun k => emitForKey rows (ser k)) := by
  simp only [online_read, List.getElem?_map, Option.map_map]
  rfl

theorem online_read_results_length (ser : Bytes → Bytes) (rows : List ReadRow)
    (keys : List Bytes) (rf : Option (List String)) :
    (online_read ser rows keys rf).results.length = keys.length := by
  simp [online_read]

/-- C9: the requested_features parameter of online_read has no effect on the
result: two calls differing only in that argument return equal outcomes. -/
theorem requested_features_has_no_effect (ser : Bytes → Bytes)
    (rows : List ReadRow) (keys : List Bytes)
    (rf1 rf2 : Option (List String)) :
    online_read ser rows keys rf1 = online_read ser rows keys rf2 := rfl

/-- C10: online_write_batch on an empty data list leaves the table unchanged,
issues no statement and never invokes the progress callback. -/
theorem empty_write_is_noop (ser : Bytes → Bytes) (table : List StoredRow)
    (hasProgress : Bool) :
    online_write_batch ser table [] hasProgress =
      { table := table, progressCalls := [], statements := 0 } := by
  simp [online_write_batch, flattenData, rangeLoop, batch_size]

/-- C8: teardown never raises to its caller; every failure of the schema drop
is caught, logged, and teardown returns normally. -/
theorem teardown_never_raises (attempt : Except String Unit) :
    (teardown attempt).raised = none ∧
      (∀ e, attempt = Except.error e → (teardown attempt).loggedException = true) := by
  cases attempt <;> simp [teardown]

theorem teardown_never_raises_witness :
    (teardown (Except.error "connection refused")).raised = none ∧
      (teardown (Except.error "connection refused")).loggedException = true :=
  ⟨(teardown_never_raises (Except.error "connection refused")).1,
   (teardown_never_raises (Except.error "connection refused")).2 "connection refused" rfl⟩

/-- C6: positions of online_read holding equal requested keys receive equal
results, all resolved from the single backend query (exactly one execute). -/
theorem duplicate_keys_identical_results (ser : Bytes → Bytes)
    (rows : List ReadRow) (keys : List Bytes) (rf : Option (List String))
    (i j : Nat) (h : keys[i]? = keys[j]?) :
    (online_read ser rows keys rf).results[i]? =
        (online_read ser rows keys rf).results[j]? ∧
      (online_read ser rows keys rf).executeCalls = 1 := by
  refine ⟨?_, rfl⟩
  rw [online_read_results_getElem, online_read_results_getElem, h]

theorem duplicate_keys_identical_results_witness :
    ([[0], [0]] : List Bytes)[0]? = ([[0], [0]] : List Bytes)[1]? ∧
      (online_read id c7Rows [[0], [0]] none).results[0]? =
        (online_read id c7Rows [[0], [0]] none).results[1]? :=
  ⟨by decide,
   (duplicate_keys_identical_results id c7Rows [[0], [0]] none 0 1 (by decide)).1⟩

theorem groupForKey_eq_nil (rows : List ReadRow) (k : Bytes)
    (h : ∀ r ∈ rows, r.entity_key ≠ k) : groupForKey rows k = [] := by
  unfold groupForKey
  rw [List.filter_eq_nil_iff.mpr]
  · rfl
  · intro r hr
    simpa using h r hr

theorem emitForKey_of_group_nil (rows : List ReadRow) (k : Bytes)
    (h : groupForKey rows k = []) : emitForKey rows k = (none, none) := by
  unfold emitForKey
  rw [h]
  rfl

/-- C1: online_read returns exactly one result per requested key, the result
at position i being the one computed for the key at position i, for every
order in which the backend returns the rows of the single query. -/
theorem read_preserves_order_and_cardinality (ser : Bytes → Bytes)
    (table : List StoredRow) (keys : List Bytes) (rf : Option (List String))
    (rows : List ReadRow) (hperm : rows.Perm (queryRows ser table keys)) :
    (online_read ser rows keys rf).results.length = keys.length ∧
      ∀ i : Nat, (online_read ser rows keys rf).results[i]? =
        keys[i]?.map (fun k => emitForKey rows (ser k)) :=
  ⟨online_read_results_length ser rows keys rf,
   fun i => online_read_results_getElem ser rows keys rf i⟩

theorem read_preserves_order_and_cardinality_witness :
    List.Perm c7Rows (queryRows id c7Table [[0], [9]]) ∧
      (online_read id c7Rows [[0], [9]] none).results.length = 2 ∧
      (online_read id c7Rows [[0], [9]] none).results[1]? = some (none, none) :=
  ⟨by decide,
   (read_preserves_order_and_cardinality id c7Table [[0], [9]] none c7Rows (by decide)).1,
   by
    have h := (read_preserves_order_and_cardinality id c7Table [[0], [9]] none c7Rows
      (by decide)).2 1
    rw [h]
    decide⟩

/-- C3: a requested key with no stored rows in the physical table yields
exactly (none, none) at its position, never an omitted entry. -/
theorem missing_key_yields_none (ser : Bytes → Bytes) (table : List StoredRow)
    (keys : List Bytes) (rf : Option (List String)) (rows : List ReadRow)
    (hperm : rows.Perm (queryRows ser table keys))
    (i : Nat) (k : Bytes) (hk : keys[i]? = some k)
    (habs : ∀ r ∈ table, r.entity_key ≠ ser k) :
    (online_read ser rows keys rf).results[i]? = some (none, none) := by
  rw [online_read_results_getElem, hk, Option.map_some']
  rw [emitForKey_of_group_nil]
  apply groupForKey_eq_nil
  intro r hr
  have hrq : r ∈ queryRows ser table keys := hperm.mem_iff.mp hr
  simp only [queryRows, List.mem_map, List.mem_filter] at hrq
  obtain ⟨s, ⟨hs, _⟩, hproj⟩ := hrq
  have : r.entity_key = s.entity_key := by rw [← hproj]
  rw [this]
  exact habs s hs

theorem missing_key_yields_none_witness :
    List.Perm c7Rows (queryRows id c7Table [[0], [9]]) ∧
      ([[0], [9]] : List Bytes)[1]? = some [9] ∧
      (∀ r ∈ c7Table, r.entity_key ≠ id [9]) ∧
      (online_read id c7Rows [[0], [9]] none).results[1]? = some (none, none) :=
  ⟨by decide, by decide, by decide,
   missing_key_yields_none id c7Table [[0], [9]] none c7Rows (by decide) 1 [9]
     (by decide) (by decide)⟩

theorem foldl_append_eq_bind {α β : Type} (f : α → List β) (l : List α) :
    ∀ init : List β, l.foldl (fun acc r => acc ++ f r) init = init ++ l.flatMap f := by
  induction l with
  | nil => intro init; simp
  | cons r rs ih => intro init; simp [ih, List.append_assoc]

theorem flattenData_eq_bind (ser : Bytes → Bytes) (data : List InputRecord) :
    flattenData ser data = data.flatMap (rowsOfRecord ser) := by
  have h : flattenData ser data =
      data.foldl (fun acc rec => acc ++ rowsOfRecord ser rec) [] := rfl
  rw [h, foldl_append_eq_bind]
  simp

theorem mem_flattenData (ser : Bytes → Bytes) (data : List InputRecord)
    (r : StoredRow) :
    r ∈ flattenData ser data ↔ ∃ rec ∈ data, r ∈ rowsOfRecord ser rec := by
  rw [flattenData_eq_bind]
  exact List.mem_flatMap

/-- C5: every timestamp passed to online_write_batch is normalized by
_to_naive_utc before storage: an aware timestamp is converted to UTC and its
zone marker stripped, a naive timestamp passes through unchanged, and every
flattened row carries the normalized event and created timestamps of its
source record. -/
theorem timestamps_normalized_to_naive_utc :
    (∀ ts : PyDateTime, ts.tz = none → _to_naive_utc ts = ts) ∧
      (∀ (ts : PyDateTime) (off : Int), ts.tz = some off →
        _to_naive_utc ts = { wall := ts.wall - off, tz := none }) ∧
      (∀ (ser : Bytes → Bytes) (data : List InputRecord) (r : StoredRow),
        r ∈ flattenData ser data →
          ∃ rec ∈ data, r.event_ts = _to_naive_utc rec.timestamp ∧
            r.created_ts = rec.created_ts.map _to_naive_utc ∧
            (_to_naive_utc rec.timestamp).tz = none) := by
  refine ⟨?_, ?_, ?_⟩
  · intro ts h
    unfold _to_naive_utc
    rw [h]
  · intro ts off h
    unfold _to_naive_utc
    rw [h]
  · intro ser data r hr
    obtain ⟨rec, hrec, hrow⟩ := (mem_flattenData ser data r).mp hr
    refine ⟨rec, hrec, ?_, ?_, ?_⟩
    · simp only [rowsOfRecord, List.mem_map] at hrow
      obtain ⟨fv, _, hfv⟩ := hrow
      rw [← hfv]
    · simp only [rowsOfRecord, List.mem_map] at hrow
      obtain ⟨fv, _, hfv⟩ := hrow
      rw [← hfv]
    · unfold _to_naive_utc
      cases h : rec.timestamp.tz <;> simp [h]

theorem timestamps_normalized_to_naive_utc_witness :
    _to_naive_utc ⟨600, some 120⟩ = ⟨480, none⟩ ∧
      _to_naive_utc ⟨480, none⟩ = ⟨480, none⟩ ∧
      (∃ rec ∈ [(⟨[0], [("f", [1])], ⟨600, some 120⟩, some ⟨480, none⟩⟩ : InputRecord)],
        (⟨[0], "f", [1], ⟨480, none⟩, some ⟨480, none⟩⟩ : StoredRow).event_ts =
            _to_naive_utc rec.timestamp ∧
          (⟨[0], "f", [1], ⟨480, none⟩, some ⟨480, none⟩⟩ : StoredRow).created_ts =
            rec.created_ts.map _to_naive_utc ∧
          (_to_naive_utc rec.timestamp).tz = none) := by
  have h := timestamps_normalized_to_naive_utc
  refine ⟨?_, h.1 ⟨480, none⟩ rfl, ?_⟩
  · have h2 := h.2.1 ⟨600, some 120⟩ 120 rfl
    rw [h2]
    norm_num
  · exact h.2.2 id [⟨[0], [("f", [1])], ⟨600, some 120⟩, some ⟨480, none⟩⟩]
      ⟨[0], "f", [1], ⟨480, none⟩, some ⟨480, none⟩⟩ (by decide)

theorem rangeLoop_progressCalls (ivs : List StoredRow) :
    ∀ (n i : Nat) (table : List StoredRow),
      (rangeLoop ivs true n i table).progressCalls =
        (List.range n).map (fun j => min batch_size (ivs.length - (i + batch_size * j))) := by
  intro n
  induction n with
  | zero => intro i table; rfl
  | succ n ih =>
    intro i table
    rw [rangeLoop]
    simp only [if_true, List.length_take, List.length_drop, ih]
    rw [List.range_succ_eq_map]
    simp only [List.map_cons, List.map_map, List.cons_append, List.nil_append,
      Nat.mul_zero, Nat.add_zero]
    have htail : List.map
        ((fun j => min batch_size (ivs.length - (i + batch_size * j))) ∘ Nat.succ)
        (List.range n) =
        List.map
          (fun j => min batch_size (ivs.length - (i + batch_size + batch_size * j)))
          (List.range n) := by
      apply List.map_congr_left
      intro j _
      simp only [Function.comp_apply, Nat.succ_eq_add_one]
      have harith : i + batch_size * (j + 1) = i + batch_size + batch_size * j := by
        ring
      rw [harith]
    rw [htail]

theorem rangeLoop_noProgress (ivs : List StoredRow) :
    ∀ (n i : Nat) (table : List StoredRow),
      (rangeLoop ivs false n i table).progressCalls = [] := by
  intro n
  induction n with
  | zero => intro i table; rfl
  | succ n ih => intro i table; simp [rangeLoop, ih]

theorem flattenData_length (ser : Bytes → Bytes) (data : List InputRecord) :
    (flattenData ser data).length =
      (data.map (fun rec => rec.values.length)).sum := by
  rw [flattenData_eq_bind, List.length_flatMap]
  refine congrArg List.sum ?_
  apply List.map_congr_left
  intro rec _
  simp [Function.comp_apply, rowsOfRecord]

theorem singleFeatureData_flatten_length (ser : Bytes → Bytes) (n : Nat) :
    (flattenData ser (singleFeatureData n)).length = n := by
  rw [flattenData_length]
  simp [singleFeatureData]

theorem singleFeature_12001_progress (ser : Bytes → Bytes)
    (table : List StoredRow) :
    (online_write_batch ser table (singleFeatureData 12001) true).progressCalls =
      [5000, 5000, 2001] := by
  simp only [online_write_batch, rangeLoop_progressCalls,
    singleFeatureData_flatten_length]
  decide

/-- C4 (amended): online_write_batch partitions the flattened rows into
consecutive batches of at most 5000 rows and invokes the progress callback,
when supplied, exactly once per batch with that batch's row count; writing
12001 single-feature records invokes it exactly 3 times with counts
5000, 5000, 2001. -/
theorem write_batch_progress_partitioning (ser : Bytes → Bytes)
    (table : List StoredRow) (data : List InputRecord) :
    (online_write_batch ser table data true).progressCalls =
        progressSizes (flattenData ser data).length ∧
      (online_write_batch ser table data false).progressCalls = [] ∧
      (online_write_batch ser table (singleFeatureData 12001) true).progressCalls =
        [5000, 5000, 2001] := by
  refine ⟨?_, ?_, singleFeature_12001_progress ser table⟩
  · simp only [online_write_batch, rangeLoop_progressCalls, progressSizes]
    simp
  · simp only [online_write_batch, rangeLoop_noProgress]

/-- C4 counterexample: writing 12001 single-feature records does not report
the counts 5000, 5000, 1 claimed by the spec; the final batch holds 2001
rows. -/
theorem write_batch_progress_partitioning_cex :
    (online_write_batch id [] (singleFeatureData 12001) true).progressCalls ≠
      [5000, 5000, 1] := by
  rw [singleFeature_12001_progress]
  decide

theorem pkEq_false_iff (ek : Bytes) (fn : String) (s : StoredRow) :
    pkEq ek fn s = false ↔ (s.entity_key ≠ ek ∨ s.feature_name ≠ fn) := by
  simp only [pkEq, decide_eq_false_iff_not]
  tauto

theorem pkEq_true_iff (ek : Bytes) (fn : String) (s : StoredRow) :
    pkEq ek fn s = true ↔ (s.entity_key = ek ∧ s.feature_name = fn) := by
  simp [pkEq]

theorem filter_map_upsert (ek : Bytes) (fn : String) (r : StoredRow)
    (hr : pkEq ek fn r = true) :
    ∀ t : List StoredRow, WellFormed t →
      ((t.map (fun s => if pkEq ek fn s then r else s)).filter (pkEq ek fn)) =
        if t.any (pkEq ek fn) then [r] else [] := by
  intro t
  induction t with
  | nil => intro _; simp
  | cons a t ih =>
    intro hwf
    have hwf2 := (List.pairwise_cons.mp hwf).2
    have hhead := (List.pairwise_cons.mp hwf).1
    by_cases ha : pkEq ek fn a = true
    · rcases (pkEq_true_iff ek fn a).mp ha with ⟨hae, haf⟩
      have htail : ∀ s ∈ t, pkEq ek fn s = false := by
        intro s hs
        rcases hhead s hs with hne | hne
        · rw [pkEq_false_iff]
          left
          intro hc
          exact hne (by rw [hae, hc])
        · rw [pkEq_false_iff]
          right
          intro hc
          exact hne (by rw [haf, hc])
      have hmapnil : ((t.map (fun s => if pkEq ek fn s then r else s)).filter
          (pkEq ek fn)) = [] := by
        rw [List.filter_eq_nil_iff]
        intro x hx
        obtain ⟨s, hs, hxs⟩ := List.mem_map.mp hx
        have hsf : pkEq ek fn s = false := htail s hs
        rw [hsf] at hxs
        simp only [Bool.false_eq_true, if_false] at hxs
        rw [← hxs, hsf]
        simp
      simp [List.map_cons, List.filter_cons, List.any_cons, ha, hr, hmapnil]
    · have ha2 : pkEq ek fn a = false := by
        cases hx : pkEq ek fn a
        · rfl
        · exact absurd hx ha
      simp only [List.map_cons, ha2, Bool.false_eq_true, if_false,
        List.filter_cons, List.any_cons, Bool.false_or]
      rw [ih hwf2]

theorem upsert_filter_pk (t : List StoredRow) (r : StoredRow)
    (hwf : WellFormed t) :
    (upsertRow t r).filter (pkEq r.entity_key r.feature_name) = [r] := by
  have hr : pkEq r.entity_key r.feature_name r = true := by
    rw [pkEq_true_iff]
    exact ⟨rfl, rfl⟩
  unfold upsertRow
  by_cases h : t.any (pkEq r.entity_key r.feature_name) = true
  · rw [if_pos h, filter_map_upsert _ _ _ hr t hwf, if_pos h]
  · have h2 : t.any (pkEq r.entity_key r.feature_name) = false := by
      cases hx : t.any (pkEq r.entity_key r.feature_name)
      · rfl
      · exact absurd hx h
    rw [if_neg h, List.filter_append]
    have hnil : t.filter (pkEq r.entity_key r.feature_name) = [] := by
      rw [List.filter_eq_nil_iff]
      intro s hs
      have := List.any_eq_false.mp h2 s hs
      simp [this]
    rw [hnil]
    simp [hr]

theorem upsert_wf (t : List StoredRow) (r : StoredRow) (hwf : WellFormed t) :
    WellFormed (upsertRow t r) := by
  unfold WellFormed at hwf ⊢
  unfold upsertRow
  by_cases h : t.any (pkEq r.entity_key r.feature_name) = true
  · rw [if_pos h]
    refine List.Pairwise.map _ (fun a b hab => ?_) hwf
    by_cases ha : pkEq r.entity_key r.feature_name a = true
    · by_cases hb : pkEq r.entity_key r.feature_name b = true
      · rcases (pkEq_true_iff _ _ a).mp ha with ⟨hae, haf⟩
        rcases (pkEq_true_iff _ _ b).mp hb with ⟨hbe, hbf⟩
        rcases hab with hne | hne
        · exact absurd (by rw [hae, hbe]) hne
        · exact absurd (by rw [haf, hbf]) hne
      · have hb2 : pkEq r.entity_key r.feature_name b = false := by
          cases hx : pkEq r.entity_key r.feature_name b
          · rfl
          · exact absurd hx hb
        simp only [ha, if_true, hb2, Bool.false_eq_true, if_false]
        rcases (pkEq_false_iff _ _ b).mp hb2 with hne | hne
        · exact Or.inl (fun hc => hne (by rw [← hc]))
        · exact Or.inr (fun hc => hne (by rw [← hc]))
    · have ha2 : pkEq r.entity_key r.feature_name a = false := by
        cases hx : pkEq r.entity_key r.feature_name a
        · rfl
        · exact absurd hx ha
      simp only [ha2, Bool.false_eq_true, if_false]
      by_cases hb : pkEq r.entity_key r.feature_name b = true
      · simp only [hb, if_true]
        rcases (pkEq_false_iff _ _ a).mp ha2 with hne | hne
        · exact Or.inl (fun hc => hne (by rw [hc]))
        · exact Or.inr (fun hc => hne (by rw [hc]))
      · have hb2 : pkEq r.entity_key r.feature_name b = false := by
          cases hx : pkEq r.entity_key r.feature_name b
          · rfl
          · exact absurd hx hb
        simp only [hb2, Bool.false_eq_true, if_false]
        exact hab
  · rw [if_neg h]
    rw [List.pairwise_append]
    refine ⟨hwf, List.pairwise_singleton _ _, ?_⟩
    intro a ha b hb
    have hb2 : b = r := by simpa using hb
    subst hb2
    have h2 : t.any (pkEq b.entity_key b.feature_name) = false := by
      cases hx : t.any (pkEq b.entity_key b.feature_name)
      · rfl
      · exact absurd hx h
    have := List.any_eq_false.mp h2 a ha
    rcases (pkEq_false_iff _ _ a).mp (by simpa using this) with hne | hne
    · exact Or.inl hne
    · exact Or.inr hne

theorem write_single (ser : Bytes → Bytes) (t : List StoredRow) (hp : Bool)
    (k : Bytes) (f : String) (v : Bytes) (ts : PyDateTime)
    (c : Option PyDateTime) :
    (online_write_batch ser t [⟨k, [(f, v)], ts, c⟩] hp).table =
      upsertRow t ⟨ser k, f, v, _to_naive_utc ts, c.map _to_naive_utc⟩ := by
  have hflat : flattenData ser [⟨k, [(f, v)], ts, c⟩] =
      [⟨ser k, f, v, _to_naive_utc ts, c.map _to_naive_utc⟩] := rfl
  simp [online_write_batch, hflat, rangeLoop, batch_size]

/-- C2: writing a record for an (entity_key, feature_name) pair replaces any
stored row for that pair, leaving exactly one stored row carrying the new
value and normalized timestamps; writing the pair twice leaves exactly one
row holding the second write's value and timestamps. -/
theorem upsert_last_writer_wins (ser : Bytes → Bytes) (t : List StoredRow)
    (hp1 hp2 : Bool) (k : Bytes) (f : String) (v1 v2 : Bytes)
    (ts1 ts2 : PyDateTime) (c1 c2 : Option PyDateTime) (hwf : WellFormed t) :
    ((online_write_batch ser t [⟨k, [(f, v1)], ts1, c1⟩] hp1).table.filter
        (pkEq (ser k) f) =
      [⟨ser k, f, v1, _to_naive_utc ts1, c1.map _to_naive_utc⟩]) ∧
      ((online_write_batch ser
          (online_write_batch ser t [⟨k, [(f, v1)], ts1, c1⟩] hp1).table
          [⟨k, [(f, v2)], ts2, c2⟩] hp2).table.filter (pkEq (ser k) f) =
        [⟨ser k, f, v2, _to_naive_utc ts2, c2.map _to_naive_utc⟩]) := by
  rw [write_single, write_single]
  exact ⟨upsert_filter_pk t ⟨ser k, f, v1, _to_naive_utc ts1, c1.map _to_naive_utc⟩ hwf,
    upsert_filter_pk _ ⟨ser k, f, v2, _to_naive_utc ts2, c2.map _to_naive_utc⟩
      (upsert_wf t ⟨ser k, f, v1, _to_naive_utc ts1, c1.map _to_naive_utc⟩ hwf)⟩

theorem upsert_last_writer_wins_witness :
    WellFormed [⟨[0], "f", [9], ⟨1, none⟩, none⟩] ∧
      ((online_write_batch id
          (online_write_batch id [⟨[0], "f", [9], ⟨1, none⟩, none⟩]
            [⟨[0], [("f", [4])], ⟨2, none⟩, none⟩] true).table
          [⟨[0], [("f", [7])], ⟨3, none⟩, none⟩] true).table.filter
        (pkEq (id [0]) "f") =
        [⟨id [0], "f", [7], _to_naive_utc ⟨3, none⟩, Option.map _to_naive_utc none⟩]) :=
  ⟨List.pairwise_singleton _ _,
   (upsert_last_writer_wins id [⟨[0], "f", [9], ⟨1, none⟩, none⟩] true true
      [0] "f" [4] [7] ⟨2, none⟩ ⟨3, none⟩ none none
      (List.pairwise_singleton _ _)).2⟩

theorem lastEts_eq_getLast :
    ∀ (g : List (String × Bytes × PyDateTime)) (h : g ≠ []),
      lastEts g = some ((g.getLast h).2.2) := by
  intro g
  induction g with
  | nil => intro h; exact absurd rfl h
  | cons e g ih =>
    intro h
    cases g with
    | nil => rfl
    | cons e2 g2 =>
      rw [lastEts, ih (List.cons_ne_nil e2 g2)]
      rw [List.getLast_cons (List.cons_ne_nil e2 g2)]

theorem emitForKey_of_group_ne_nil (rows : List ReadRow) (k : Bytes)
    (hg : groupForKey rows k ≠ []) :
    emitForKey rows k =
      (some (((groupForKey rows k).getLast hg).2.2),
        some (buildRes (groupForKey rows k))) := by
  unfold emitForKey
  simp only [lastEts_eq_getLast _ hg]

theorem dictInsert_of_not_mem (d : List (String × Bytes)) (k : String)
    (v : Bytes) (h : ∀ p ∈ d, p.1 ≠ k) :
    dictInsert d k v = d ++ [(k, v)] := by
  unfold dictInsert
  rw [if_neg]
  intro hc
  obtain ⟨p, hp, hpk⟩ := List.any_eq_true.mp hc
  exact h p hp (by simpa using hpk)

theorem buildRes_aux (g : List (String × Bytes × PyDateTime)) :
    ∀ acc : List (String × Bytes),
      (g.map (fun e => e.1)).Nodup →
      (∀ e ∈ g, ∀ p ∈ acc, p.1 ≠ e.1) →
      g.foldl (fun res e => dictInsert res e.1 e.2.1) acc =
        acc ++ g.map (fun e => (e.1, e.2.1)) := by
  induction g with
  | nil => intro acc _ _; simp
  | cons e g ih =>
    intro acc hnd hdisj
    have hnd2 : (g.map (fun e => e.1)).Nodup := (List.nodup_cons.mp hnd).2
    have hhead : e.1 ∉ g.map (fun e => e.1) := (List.nodup_cons.mp hnd).1
    rw [List.foldl_cons]
    rw [dictInsert_of_not_mem acc e.1 e.2.1
      (fun p hp => hdisj e (List.mem_cons_self e g) p hp)]
    rw [ih (acc ++ [(e.1, e.2.1)]) hnd2 ?_]
    · simp
    · intro e2 he2 p hp
      rcases List.mem_append.mp hp with hp2 | hp2
      · exact hdisj e2 (List.mem_cons_of_mem e he2) p hp2
      · have hpe : p = (e.1, e.2.1) := by simpa using hp2
        subst hpe
        intro hc
        exact hhead (hc ▸ List.mem_map_of_mem (fun e => e.1) he2)

theorem buildRes_eq_map (g : List (String × Bytes × PyDateTime))
    (hnd : (g.map (fun e => e.1)).Nodup) :
    buildRes g = g.map (fun e => (e.1, e.2.1)) := by
  unfold buildRes
  rw [buildRes_aux g [] hnd (fun e _ p hp => absurd hp (List.not_mem_nil p))]
  simp

theorem dictLookup_buildRes (g : List (String × Bytes × PyDateTime))
    (hnd : (g.map (fun e => e.1)).Nodup) :
    ∀ e ∈ g, dictLookup (buildRes g) e.1 = some e.2.1 := by
  rw [buildRes_eq_map g hnd]
  induction g with
  | nil => intro e he; exact absurd he (List.not_mem_nil e)
  | cons a g ih =>
    intro e he
    have hnd2 : (g.map (fun e => e.1)).Nodup := (List.nodup_cons.mp hnd).2
    have hhead : a.1 ∉ g.map (fun e => e.1) := (List.nodup_cons.mp hnd).1
    rcases List.mem_cons.mp he with he2 | he2
    · subst he2
      unfold dictLookup
      simp [List.find?_cons]
    · have hne : a.1 ≠ e.1 := by
        intro hc
        exact hhead (hc ▸ List.mem_map_of_mem (fun e => e.1) he2)
      unfold dictLookup
      rw [List.map_cons, List.find?_cons]
      have hcond : decide (((a.1, a.2.1) : String × Bytes).1 = e.1) = false := by
        simp [hne]
      rw [hcond]
      exact ih hnd2 e he2

theorem queryRows_group_fnames_nodup (ser : Bytes → Bytes)
    (table : List StoredRow) (entity_keys : List Bytes) (hwf : WellFormed table)
    (k : Bytes) :
    ((groupForKey (queryRows ser table entity_keys) k).map
      (fun e => e.1)).Nodup := by
  unfold groupForKey queryRows
  simp only [List.filter_map, List.map_map]
  unfold List.Nodup
  rw [List.pairwise_map]
  unfold WellFormed at hwf
  refine List.Pairwise.imp_of_mem ?_ ((hwf.filter _).filter _)
  intro a b ha hb hab
  have hak : a.entity_key = k := by
    have := (List.mem_filter.mp ha).2
    simpa using this
  have hbk : b.entity_key = k := by
    have := (List.mem_filter.mp hb).2
    simpa using this
  rcases hab with hne | hne
  · exact absurd (by rw [hak, hbk]) hne
  · simpa [Function.comp] using hne

theorem group_fnames_nodup_of_perm (ser : Bytes → Bytes)
    (table : List StoredRow) (entity_keys : List Bytes) (hwf : WellFormed table)
    (rows : List ReadRow) (hperm : rows.Perm (queryRows ser table entity_keys))
    (k : Bytes) :
    ((groupForKey rows k).map (fun e => e.1)).Nodup := by
  have h1 := queryRows_group_fnames_nodup ser table entity_keys hwf k
  have h2 : (groupForKey rows k).Perm
      (groupForKey (queryRows ser table entity_keys) k) :=
    (hperm.filter _).map _
  exact ((h2.map _).nodup_iff).mpr h1

/-- C7 (amended): for every requested key whose row group is nonempty,
online_read emits a pair whose second component maps each returned
feature_name to its deserialized value, and whose first component is the
event_ts of the LAST row of that key's group in backend return order (the
leaked loop variable), not necessarily the latest event_ts. -/
theorem read_emits_last_group_row (ser : Bytes → Bytes)
    (table : List StoredRow) (keys : List Bytes) (rf : Option (List String))
    (rows : List ReadRow) (hperm : rows.Perm (queryRows ser table keys))
    (hwf : WellFormed table) (i : Nat) (k : Bytes) (hk : keys[i]? = some k)
    (hg : groupForKey rows (ser k) ≠ []) :
    (online_read ser rows keys rf).results[i]? =
        some (some (((groupForKey rows (ser k)).getLast hg).2.2),
          some (buildRes (groupForKey rows (ser k)))) ∧
      ∀ e ∈ groupForKey rows (ser k),
        dictLookup (buildRes (groupForKey rows (ser k))) e.1 = some e.2.1 := by
  constructor
  · rw [online_read_results_getElem, hk, Option.map_some']
    rw [emitForKey_of_group_ne_nil rows (ser k) hg]
  · exact dictLookup_buildRes _
      (group_fnames_nodup_of_perm ser table keys hwf rows hperm (ser k))

theorem read_emits_last_group_row_witness :
    List.Perm c7Rows (queryRows id c7Table [[0]]) ∧
      WellFormed c7Table ∧
      ([[0]] : List Bytes)[0]? = some [0] ∧
      groupForKey c7Rows (id [0]) ≠ [] ∧
      (online_read id c7Rows [[0]] none).results[0]? =
        some (some ⟨3, none⟩, some [("f1", [1]), ("f2", [2])]) := by
  have hwf : WellFormed c7Table := by
    unfold WellFormed
    decide
  refine ⟨by decide, hwf, by decide, by decide, ?_⟩
  have h := (read_emits_last_group_row id c7Table [[0]] none c7Rows (by decide)
    hwf 0 [0] (by decide) (by decide)).1
  rw [h]
  decide

/-- C7 counterexample: the first component is not the latest event_ts of the
key's rows: with two stored rows whose backend return order puts the larger
event_ts first, online_read emits the smaller (last-returned) one, although
a row with a strictly larger event_ts is in the same group. -/
theorem read_emits_last_group_row_cex :
    List.Perm c7Rows (queryRows id c7Table [[0]]) ∧
      WellFormed c7Table ∧
      (online_read id c7Rows [[0]] none).results =
        [(some ⟨3, none⟩, some [("f1", [1]), ("f2", [2])])] ∧
      ("f1", [1], ({ wall := 5, tz := none } : PyDateTime)) ∈
        groupForKey c7Rows [0] ∧
      (3 : Int) < 5 := by
  refine ⟨by decide, ?_, by decide, by decide, by decide⟩
  unfold WellFormed
  decide
